import Mathlib

/-!
Verification development for the `viedo_check` repository
(`src/video_checker.py`).

The Python source is shallowly embedded as follows.

* A decoded video frame is a matrix of pixel values, modelled as
  `List (List ℕ)` (rows of pixels).  The source converts each colour frame
  to a single-channel luminance image (`cv2.cvtColor`, an external
  pointwise map with `0 ↦ 0`) before any arithmetic; the model works
  directly on those luminance matrices, so masking (the only per-pixel
  operation performed before the conversion, and one that commutes with
  any pointwise map sending 0 to 0) is applied to the luminance matrix.
* Machine integers are `ℕ`/`ℤ`; Python floats are modelled as exact
  rationals `ℚ`; Python's `ZeroDivisionError` is modelled with
  `Except Unit`.
* `cv2.GaussianBlur(·, (21, 21), 0)` is external to the repository.
  Modelled from the spec: a noise-suppressing blur with a fixed 21×21
  Gaussian-equivalent kernel — realised as the separable 21-tap binomial
  kernel (weights `Nat.choose 20 k`, total weight `2^20`), rounded to
  nearest, with OpenCV's default reflect-101 border handling.
* `cv2.dilate(·, None, iterations := 2)` uses the default 3×3 rectangular
  structuring element; it is modelled exactly as two iterations of a 3×3
  neighbourhood maximum (out-of-range neighbours do not contribute).
* `cv2.threshold(·, 25, 255, THRESH_BINARY)`, `cv2.absdiff` and
  `np.count_nonzero` are modelled exactly, pointwise.
* NumPy slice assignment `frame[y1:y2, x1:x2] = 0` is modelled with
  Python slice-index normalisation (negative indices count from the end,
  out-of-range indices clamp).
-/

namespace VideoCheck

/-- A (luminance) frame: a list of pixel rows. -/
abbrev Frame := List (List ℕ)

/-- `idxMapFrom f i l` maps `f` over `l` together with the position of each
element, starting the position count at `i`. -/
def idxMapFrom (f : ℕ → α → β) : ℕ → List α → List β
  | _, [] => []
  | i, a :: as => f i a :: idxMapFrom f (i + 1) as

/-- Map a function over a list together with each element's index. -/
def idxMap (f : ℕ → α → β) (l : List α) : List β := idxMapFrom f 0 l

/-- Python/NumPy slice-bound normalisation for an axis of length `n`:
negative bounds count from the end, and bounds are clamped to `[0, n]`. -/
def normIdx (n : ℕ) (a : ℤ) : ℕ := if a < 0 then ((n : ℤ) + a).toNat else min a.toNat n

/-- Whether index `i` lies in the normalised slice `[a, b)` of an axis of
length `n`. -/
def inSlice (n : ℕ) (a b : ℤ) (i : ℕ) : Bool :=
  decide (normIdx n a ≤ i) && decide (i < normIdx n b)

/-- `frame[y1:y2, x1:x2] = 0` (source line 42 / line 70): zero the
timestamp-overlay rectangle.  The box is `(x1, y1, x2, y2)`. -/
def zeroMask (box : ℤ × ℤ × ℤ × ℤ) (f : Frame) : Frame :=
  idxMap (fun y row =>
    idxMap (fun x v =>
      if inSlice f.length box.2.1 box.2.2.2 y && inSlice row.length box.1 box.2.2.1 x
      then 0 else v) row) f

/-- Pixel access with out-of-range default 0. -/
def getPix (f : Frame) (y x : ℕ) : ℕ := (f.getD y []).getD x 0

/-- OpenCV reflect-101 border indexing for an axis of length `n`. -/
def reflect101 (n : ℕ) (i : ℤ) : ℕ :=
  if n ≤ 1 then 0
  else
    let j := (i % (2 * (n : ℤ) - 2)).toNat
    if n ≤ j then 2 * n - 2 - j else j

/-- Binomial weight of the 21-tap Gaussian-equivalent kernel
(total weight `2 ^ 20`). -/
def gaussWeight (k : ℕ) : ℕ := Nat.choose 20 k

/-- Horizontal 21-tap blur of one row at position `x`, rounded to nearest. -/
def blurRowAt (row : List ℕ) (x : ℕ) : ℕ :=
  (((List.range 21).map
      (fun k => gaussWeight k * row.getD (reflect101 row.length ((x : ℤ) + k - 10)) 0)).sum
    + 524288) / 1048576

/-- Horizontal pass of the separable blur. -/
def hblur (f : Frame) : Frame := f.map (fun row => idxMap (fun x _ => blurRowAt row x) row)

/-- Vertical 21-tap blur at position `(y, x)`, rounded to nearest. -/
def blurColAt (f : Frame) (y x : ℕ) : ℕ :=
  (((List.range 21).map
      (fun k => gaussWeight k * getPix f (reflect101 f.length ((y : ℤ) + k - 10)) x)).sum
    + 524288) / 1048576

/-- Vertical pass of the separable blur. -/
def vblur (f : Frame) : Frame :=
  idxMap (fun y row => idxMap (fun x _ => blurColAt f y x) row) f

/-- Modelled from the spec: the external `cv2.GaussianBlur(·, (21, 21), 0)`
(source lines 46 and 74), as a separable 21×21 Gaussian-equivalent
binomial filter with reflect-101 borders. -/
def gaussianBlur21 (f : Frame) : Frame := vblur (hblur f)

/-- `cv2.absdiff` (source line 77): pointwise absolute difference. -/
def absdiffImg (a b : Frame) : Frame :=
  List.zipWith (fun ra rb => List.zipWith (fun u v => max u v - min u v) ra rb) a b

/-- `cv2.threshold(diff, 25, 255, THRESH_BINARY)` (source line 80). -/
def threshImg (d : Frame) : Frame :=
  d.map (fun row => row.map (fun v => if 25 < v then 255 else 0))

/-- One iteration of `cv2.dilate` with the default 3×3 structuring element:
a 3×3 neighbourhood maximum (out-of-range neighbours contribute nothing). -/
def dilate3 (t : Frame) : Frame :=
  idxMap (fun y row =>
    idxMap (fun x _ =>
      (((List.range 3).map (fun dy =>
          (List.range 3).map (fun dx => getPix t (y + dy - 1) (x + dx - 1)))).flatten).foldr
        max 0) row) t

/-- `cv2.dilate(thresh, None, iterations := 2)` (source line 83). -/
def dilate2 (t : Frame) : Frame := dilate3 (dilate3 t)

/-- `np.count_nonzero` (source line 86). -/
def countNonzero (img : Frame) : ℕ :=
  (img.map (fun row => row.countP (fun v => decide (0 < v)))).sum

/-- The changed-pixel count of one comparison (source lines 77–86):
absolute difference of the two blurred frames, binarised at 25, dilated
twice, non-zero pixels counted.  `g` is the current frame, `prevG` the
reference frame, both already masked and blurred. -/
def diffCount (g prevG : Frame) : ℕ :=
  countNonzero (dilate2 (threshImg (absdiffImg g prevG)))

/-- `prev_frame_gray.shape[0]`. -/
def heightOf (f : Frame) : ℕ := f.length

/-- `prev_frame_gray.shape[1]`. -/
def widthOf (f : Frame) : ℕ := (f.headD []).length

/-- `total_pixels` (source line 55): frame area minus the raw mask-box
area, as a Python integer. -/
def totalPixelsInt (box : ℤ × ℤ × ℤ × ℤ) (g : Frame) : ℤ :=
  (heightOf g : ℤ) * (widthOf g : ℤ) - (box.2.2.1 - box.1) * (box.2.2.2 - box.2.1)

/-- The ratio test of source line 94: `diff_ratio > ratio_threshold` with
`diff_ratio = diff_count / total_pixels * 100` (source line 90). -/
def ratioCond (R : ℚ) (c : ℕ) (total : ℤ) : Prop :=
  R < (c : ℚ) / (total : ℚ) * 100

/-- Multiplying a rational by its own denominator yields its numerator. -/
theorem rat_mul_den (q : ℚ) : q * (q.den : ℚ) = (q.num : ℚ) := by
  nth_rewrite 1 [← Rat.num_div_den q]
  rw [div_mul_cancel₀]
  exact Nat.cast_ne_zero.mpr q.den_nz

/-- `ratioCond` decided by integer cross-multiplication (rational
arithmetic does not evaluate inside the kernel, so the instance is spelled
out on the numerator/denominator representation). -/
instance ratioCond.instDecidable (R : ℚ) (c : ℕ) (total : ℤ) :
    Decidable (ratioCond R c total) :=
  decidable_of_iff
    ((if 0 < total then decide (R.num * total < (c : ℤ) * 100 * (R.den : ℤ))
      else if total = 0 then decide (R.num < 0)
      else decide ((c : ℤ) * 100 * (R.den : ℤ) < R.num * total)) = true) (by
    have hden : (0 : ℚ) < (R.den : ℚ) := by
      exact_mod_cast Nat.pos_of_ne_zero R.den_nz
    unfold ratioCond
    rcases lt_trichotomy total 0 with ht | ht | ht
    · rw [if_neg (by omega), if_neg (by omega), decide_eq_true_iff]
      have ht' : ((total : ℤ) : ℚ) < 0 := by exact_mod_cast ht
      rw [div_mul_eq_mul_div, lt_div_iff_of_neg ht', ← mul_lt_mul_right hden,
        mul_right_comm R, rat_mul_den]
      exact Iff.intro (fun h => by exact_mod_cast h) (fun h => by exact_mod_cast h)
    · rw [if_neg (by omega), if_pos ht, decide_eq_true_iff, ht]
      rw [show (((0 : ℤ) : ℚ)) = 0 by norm_num, div_zero, zero_mul]
      rw [← not_le, ← not_le, Rat.num_nonneg]
    · rw [if_pos ht, decide_eq_true_iff]
      have ht' : (0 : ℚ) < ((total : ℤ) : ℚ) := by exact_mod_cast ht
      rw [div_mul_eq_mul_div, lt_div_iff₀ ht', ← mul_lt_mul_right hden,
        mul_right_comm R, rat_mul_den]
      exact Iff.intro (fun h => by exact_mod_cast h) (fun h => by exact_mod_cast h))

/-- The sampled-comparison loop of the classifier (source lines 57–101).
Arguments that the loop mutates — the reference frame `prevG` and the
frame counter `idx` — are threaded explicitly; `f :: rest` are the frames
still to be decoded.  A frame is compared only when its index is a
multiple of `interval`, and only compared frames become the new reference.
`total = 0` makes source line 90 raise `ZeroDivisionError`, modelled as
`.error ()`. -/
def motionLoop (box : ℤ × ℤ × ℤ × ℤ) (T : ℤ) (R : ℚ) (total : ℤ) (interval : ℕ) :
    Frame → ℕ → List Frame → Except Unit Bool
  | _, _, [] => .ok false
  | prevG, idx, f :: rest =>
    if (idx + 1) % interval ≠ 0 then
      motionLoop box T R total interval prevG (idx + 1) rest
    else
      if total = 0 then .error ()
      else if T < (diffCount (gaussianBlur21 (zeroMask box f)) prevG : ℤ) ∧
              ratioCond R (diffCount (gaussianBlur21 (zeroMask box f)) prevG) total then .ok true
      else motionLoop box T R total interval (gaussianBlur21 (zeroMask box f)) (idx + 1) rest

/-- `check_video_motion` (source lines 8–111).  `data` is `none` when
`cv2.VideoCapture` fails to open the clip, and `some frames` otherwise,
with `frames` the decodable frames in decode order; `frameCount` is the
`CAP_PROP_FRAME_COUNT` metadata value.  The first frame becomes the
initial reference; the remaining frames run through `motionLoop` with
sampling stride `max 1 (frameCount / 20)`. -/
def checkVideoMotion (data : Option (List Frame)) (frameCount : ℕ) (T : ℤ)
    (box : ℤ × ℤ × ℤ × ℤ) (R : ℚ) : Except Unit Bool :=
  match data with
  | none => .ok true
  | some [] => .ok true
  | some (first :: rest) =>
    motionLoop box T R (totalPixelsInt box (gaussianBlur21 (zeroMask box first)))
      (max 1 (frameCount / 20)) (gaussianBlur21 (zeroMask box first)) 0 rest

/-- The changed-pixel mask of one comparison before counting:
mask, blur, absolute difference, binarisation at 25, two dilations
(source lines 69–83).  `A` is the reference frame, `B` the current one. -/
def changedMask (A B : Frame) (box : ℤ × ℤ × ℤ × ℤ) : Frame :=
  dilate2 (threshImg (absdiffImg (gaussianBlur21 (zeroMask box B)) (gaussianBlur21 (zeroMask box A))))

/-- `pixelCount` of one comparison of raw frames `A` (reference) and `B`. -/
def pixelCountOf (A B : Frame) (box : ℤ × ℤ × ℤ × ℤ) : ℕ :=
  diffCount (gaussianBlur21 (zeroMask box B)) (gaussianBlur21 (zeroMask box A))

/-- The Frame Differencer contract `difference(frameA, frameB, mask) ->
(pixelCount, ratio)` assembled from source lines 40–55 and 69–91: the
changed-pixel count together with `ratio = pixelCount / totalPixels * 100`;
`totalPixels = 0` raises `ZeroDivisionError` (modelled as `.error ()`). -/
def frameDifference (A B : Frame) (box : ℤ × ℤ × ℤ × ℤ) : Except Unit (ℕ × ℚ) :=
  if totalPixelsInt box (gaussianBlur21 (zeroMask box A)) = 0 then .error ()
  else .ok (pixelCountOf A B box,
    (pixelCountOf A B box : ℚ) / (totalPixelsInt box (gaussianBlur21 (zeroMask box A)) : ℚ) * 100)

/-- Count of positions `(y, x)` of `img` whose value satisfies `P y x v`. -/
def countWhere (P : ℕ → ℕ → ℕ → Bool) (img : Frame) : ℕ :=
  (idxMap (fun y row => (idxMap (fun x v => if P y x v then 1 else 0) row).sum) img).sum

/-- Whether the unit pixel square at `(y, x)` lies strictly inside the
mask rectangle `(x1, y1, x2, y2)`. -/
def strictlyInsideBox (box : ℤ × ℤ × ℤ × ℤ) (y x : ℕ) : Bool :=
  decide (box.1 < (x : ℤ)) && decide ((x : ℤ) + 1 < box.2.2.1) &&
  decide (box.2.1 < (y : ℤ)) && decide ((y : ℤ) + 1 < box.2.2.2)

/-- Whether the pixel at `(y, x)` is inside the zeroed mask slice of a
frame of height `h` and width `w`. -/
def inMaskRegion (box : ℤ × ℤ × ℤ × ℤ) (h w : ℕ) (y x : ℕ) : Bool :=
  inSlice h box.2.1 box.2.2.2 y && inSlice w box.1 box.2.2.1 x

/-- The digits of a filename's numeric group, folded to a number exactly
as Python's `int` does on a decimal-digit string. -/
def digitsToNat (ds : List Char) : ℕ := ds.foldl (fun n c => n * 10 + (c.toNat - 48)) 0

/-- The regex match of `re.match(r'(\d+)M(\d+)S_\d+', filename)`
(source line 123), as a deterministic maximal-munch parser: since the
characters following each digit group (`M`, `S`, `_`) are not digits,
greedy matching with backtracking coincides with maximal munch.
`re.match` only anchors at the start, so trailing characters after the
first post-underscore digit are unconstrained. -/
def parseVideoTimeAux (cs : List Char) : Option (ℕ × ℕ) :=
  match cs.span Char.isDigit with
  | (d1, rest1) =>
    if d1.isEmpty then none
    else
      match rest1 with
      | 'M' :: rest2 =>
        match rest2.span Char.isDigit with
        | (d2, rest3) =>
          if d2.isEmpty then none
          else
            match rest3 with
            | 'S' :: '_' :: c :: _ =>
              if c.isDigit then some (digitsToNat d1, digitsToNat d2) else none
            | _ => none
      | _ => none

/-- `parse_video_time` (source lines 113–128): `(minutes, seconds)` on a
match, `(0, 0)` otherwise. -/
def parseVideoTime (s : String) : ℕ × ℕ := (parseVideoTimeAux s.data).getD (0, 0)

/-- Python's `<` on the `(minutes, seconds)` tuples produced by the
parser: lexicographic comparison. -/
def keyLT (a b : ℕ × ℕ) : Bool :=
  decide (a.1 < b.1) || (decide (a.1 = b.1) && decide (a.2 < b.2))

/-- A clip as the orchestrator and concatenator see it: its filename stem,
its decodable frames (`none` when the file cannot be opened), and its
`CAP_PROP_FRAME_COUNT` / `FRAME_WIDTH` / `FRAME_HEIGHT` / `FPS` metadata. -/
structure ClipFile where
  name : String
  data : Option (List Frame)
  frameCount : ℕ
  width : ℕ
  height : ℕ
  fps : ℚ
deriving DecidableEq

/-- The sort key of source line 159: `parse_video_time(x.stem)`. -/
def clipKey (c : ClipFile) : ℕ × ℕ := parseVideoTime c.name

/-- Stable insertion: `a` is placed before the first element whose key is
not smaller than `a`'s, so equal keys keep their relative order. -/
def insertByKey (key : α → ℕ × ℕ) (a : α) : List α → List α
  | [] => [a]
  | b :: bs => if keyLT (key b) (key a) then b :: insertByKey key a bs else a :: b :: bs

/-- A stable ascending sort by key, modelling Python's stable `sorted`. -/
def sortByKey (key : α → ℕ × ℕ) : List α → List α
  | [] => []
  | a :: as => insertByKey key a (sortByKey key as)

/-- `sorted(video_files, key=lambda x: parse_video_time(x.stem))`
(source lines 158–159). -/
def sortClips (clips : List ClipFile) : List ClipFile := sortByKey clipKey clips

/-- The two codecs the writer may be created with (source lines 176, 182). -/
inductive Codec where
  | h264
  | mp4v
deriving DecidableEq

/-- A file that may sit at the output path: the first-pass concatenation
written by the `cv2.VideoWriter`, or the ffmpeg re-encoded result. -/
inductive OutFile where
  | firstPass (codec : Codec) (frames : List Frame)
  | reencoded (frames : List Frame)
deriving DecidableEq

/-- The runtime environment of one concatenation: whether the primary
H.264 writer opens, whether the fallback mp4v writer opens, and whether
the external `ffmpeg` invocation succeeds (exit status 0). -/
structure ConcatEnv where
  h264Opens : Bool
  mp4vOpens : Bool
  ffmpegOk : Bool
deriving DecidableEq

/-- Observable outcome of a completed `concatenate_videos` run. -/
structure ConcatResult where
  /-- The clip names in processing (sorted) order. -/
  order : List String
  /-- The writer constructions attempted, each with codec, width, height
  and frame rate. -/
  attempts : List (Codec × ℕ × ℕ × ℚ)
  /-- Whether some writer opened. -/
  writerOpened : Bool
  /-- Every frame written to the output, in order. -/
  writtenFrames : List Frame
  /-- The file at the output path after the first pass (`out.release()`,
  source line 198), before the compression block. -/
  afterFirstPass : Option OutFile
  /-- The file at the output path after the whole call returns. -/
  outputFile : Option OutFile
  /-- The file at the temporary path after the whole call returns. -/
  tempFile : Option OutFile
deriving DecidableEq

/-- Result of `concatenate_videos`. -/
inductive ConcatOutcome where
  | empty
  | cannotOpenFirst
  | done (r : ConcatResult)
deriving DecidableEq

/-- `concatenate_videos` (source lines 145–209).  Early return on an empty
clip list (line 153) and on an unopenable first sorted clip (line 163).
Writer creation: H.264 first, mp4v fallback if it fails to open
(lines 176–183); no second `isOpened` check exists, so when both fail the
frame loop still runs, `out.write` silently drops every frame, and no
file appears at the output path.  Clips that fail to open inside the
frame loop contribute zero frames (`cap.read` immediately returns false).
Compression block (lines 201–209): the output is renamed to a temporary
path — raising `FileNotFoundError`, caught by the `except`, when no
output file exists — then `os.system` runs ffmpeg, whose exit status is
ignored (a failing ffmpeg raises no exception and creates no output
file), then `os.remove` deletes the temporary file. -/
def concatenateVideos (clips : List ClipFile) (env : ConcatEnv) : ConcatOutcome :=
  match sortClips clips with
  | [] => .empty
  | first :: restSorted =>
    match first.data with
    | none => .cannotOpenFirst
    | some _ =>
      let sorted := first :: restSorted
      let attempts :=
        if env.h264Opens then [(Codec.h264, first.width, first.height, first.fps)]
        else [(Codec.h264, first.width, first.height, first.fps),
              (Codec.mp4v, first.width, first.height, first.fps)]
      let opened := env.h264Opens || env.mp4vOpens
      let codec := if env.h264Opens then Codec.h264 else Codec.mp4v
      let written := if opened then (sorted.map (fun c => c.data.getD [])).flatten else []
      let afterFirstPass : Option OutFile :=
        if opened then some (OutFile.firstPass codec written) else none
      let files : Option OutFile × Option OutFile :=
        match afterFirstPass with
        | none => (none, none)
        | some _ =>
          if env.ffmpegOk then (some (OutFile.reencoded written), none)
          else (none, none)
      .done { order := sorted.map (fun c => c.name), attempts := attempts,
              writerOpened := opened, writtenFrames := written,
              afterFirstPass := afterFirstPass,
              outputFile := files.1, tempFile := files.2 }

/-- The classification-and-deletion pass of `process_video_folder`
(source lines 228–239): each clip is classified; motionless clips are
deleted (collected right-to-left here, matching processing order), the
rest are kept in order.  An uncaught exception inside
`check_video_motion` aborts the whole pass. -/
def classifyClips (T : ℤ) (box : ℤ × ℤ × ℤ × ℤ) (R : ℚ) :
    List ClipFile → Except Unit (List ClipFile × List String)
  | [] => .ok ([], [])
  | c :: rest =>
    match checkVideoMotion c.data c.frameCount T box R with
    | .error e => .error e
    | .ok m =>
      match classifyClips T box R rest with
      | .error e => .error e
      | .ok p => if m then .ok (c :: p.1, p.2) else .ok (p.1, c.name :: p.2)

/-- `process_video_folder` (source lines 211–243): classify and delete,
then concatenate the survivors into `folder/concatenated_output.mp4`
when `concat` is set and the survivor list is non-empty.  Returns the
kept clips, the deleted clip names, and the concatenation outcome when
one was attempted. -/
def processVideoFolder (clips : List ClipFile) (T : ℤ) (concat : Bool)
    (box : ℤ × ℤ × ℤ × ℤ) (R : ℚ) (env : ConcatEnv) :
    Except Unit (List ClipFile × List String × Option ConcatOutcome) :=
  match classifyClips T box R clips with
  | .error e => .error e
  | .ok p =>
    if concat && !p.1.isEmpty then .ok (p.1, p.2, some (concatenateVideos p.1 env))
    else .ok (p.1, p.2, none)

/-! ### Basic lemmas about the embedding's list machinery -/

theorem length_idxMapFrom (f : ℕ → α → β) (i : ℕ) (l : List α) :
    (idxMapFrom f i l).length = l.length := by
  induction l generalizing i with
  | nil => rfl
  | cons a as ih => simp [idxMapFrom, ih]

theorem length_idxMap (f : ℕ → α → β) (l : List α) :
    (idxMap f l).length = l.length :=
  length_idxMapFrom f 0 l

theorem mem_idxMapFrom {f : ℕ → α → β} {i : ℕ} {l : List α} {b : β}
    (h : b ∈ idxMapFrom f i l) : ∃ j a, a ∈ l ∧ b = f j a := by
  induction l generalizing i with
  | nil => cases h
  | cons x xs ih =>
    rcases List.mem_cons.mp h with h1 | h1
    · exact ⟨i, x, List.mem_cons_self x xs, h1⟩
    · rcases ih h1 with ⟨j, a, ha, hb⟩
      exact ⟨j, a, List.mem_cons_of_mem x ha, hb⟩

theorem getElem_idxMapFrom (f : ℕ → α → β) (i : ℕ) (l : List α) (j : ℕ)
    (h : j < l.length) :
    (idxMapFrom f i l).get ⟨j, by rw [length_idxMapFrom]; exact h⟩ = f (i + j) (l.get ⟨j, h⟩) := by
  induction l generalizing i j with
  | nil => cases h
  | cons a as ih =>
    cases j with
    | zero => rfl
    | succ j =>
      have hj : j < as.length := Nat.lt_of_succ_lt_succ h
      have := ih (i + 1) j hj
      simpa [idxMapFrom, Nat.add_assoc, Nat.add_comm 1 j] using this

theorem getD_of_lt (l : List α) (i : ℕ) (d : α) (h : i < l.length) :
    l.getD i d = l.get ⟨i, h⟩ := by
  induction l generalizing i with
  | nil => cases h
  | cons a as ih =>
    cases i with
    | zero => rfl
    | succ i => exact ih i (Nat.lt_of_succ_lt_succ h)

theorem foldr_max_zero (l : List ℕ) (h : ∀ v ∈ l, v = 0) : l.foldr max 0 = 0 := by
  induction l with
  | nil => rfl
  | cons a as ih =>
    have ha := h a (List.mem_cons_self a as)
    have has := fun v hv => h v (List.mem_cons_of_mem a hv)
    simp [ha, ih has]

/-! ### All-zero images through the pipeline stages -/

/-- Every pixel of the image is zero. -/
def allZero (img : Frame) : Prop := ∀ r ∈ img, ∀ v ∈ r, v = 0

theorem absdiffImg_self_allZero (g : Frame) : allZero (absdiffImg g g) := by
  unfold absdiffImg
  induction g with
  | nil => intro r hr; cases hr
  | cons row rows ih =>
    intro r hr
    rcases List.mem_cons.mp hr with h1 | h1
    · subst h1
      intro v hv
      clear hr ih
      induction row with
      | nil => cases hv
      | cons u us ihu =>
        rcases List.mem_cons.mp hv with h2 | h2
        · simp [h2]
        · exact ihu h2
    · exact ih r h1

theorem threshImg_allZero {d : Frame} (h : allZero d) : allZero (threshImg d) := by
  intro r hr v hv
  rcases List.mem_map.mp hr with ⟨row, hrow, hrw⟩
  subst hrw
  rcases List.mem_map.mp hv with ⟨u, hu, huv⟩
  subst huv
  have := h row hrow u hu
  simp [this]

theorem getD_zero_of_all {r : List ℕ} (hr : ∀ v ∈ r, v = 0) (x : ℕ) : r.getD x 0 = 0 := by
  induction r generalizing x with
  | nil => cases x <;> rfl
  | cons u us ih =>
    cases x with
    | zero => exact hr u (List.mem_cons_self u us)
    | succ x => exact ih (fun v hv => hr v (List.mem_cons_of_mem u hv)) x

theorem getPix_allZero {t : Frame} (h : allZero t) (y x : ℕ) : getPix t y x = 0 := by
  unfold getPix
  induction t generalizing y with
  | nil =>
    cases y <;> rfl
  | cons r rs ih =>
    cases y with
    | zero => exact getD_zero_of_all (h r (List.mem_cons_self r rs)) x
    | succ y =>
      exact ih (fun r' hr' => h r' (List.mem_cons_of_mem r hr')) y

theorem dilate3_allZero {t : Frame} (h : allZero t) : allZero (dilate3 t) := by
  intro r hr v hv
  rcases mem_idxMapFrom hr with ⟨y, row, _, hrw⟩
  subst hrw
  rcases mem_idxMapFrom hv with ⟨x, u, _, huv⟩
  subst huv
  apply foldr_max_zero
  intro w hw
  rcases List.mem_flatten.mp hw with ⟨inner, hinner, hwinner⟩
  rcases List.mem_map.mp hinner with ⟨dy, _, hdy⟩
  subst hdy
  rcases List.mem_map.mp hwinner with ⟨dx, _, hdx⟩
  subst hdx
  exact getPix_allZero h _ _

theorem countNonzero_allZero {img : Frame} (h : allZero img) : countNonzero img = 0 := by
  unfold countNonzero
  apply List.sum_eq_zero
  intro n hn
  rcases List.mem_map.mp hn with ⟨row, hrow, hcnt⟩
  subst hcnt
  rw [List.countP_eq_zero]
  intro v hv
  have := h row hrow v hv
  simp [this]

theorem diffCount_self (g : Frame) : diffCount g g = 0 := by
  unfold diffCount dilate2
  exact countNonzero_allZero
    (dilate3_allZero (dilate3_allZero (threshImg_allZero (absdiffImg_self_allZero g))))

/-! ### Claim theorems -/

/-- Claim C9: for every pair of frames that are equal after the mask
region is zeroed, the frame difference computation yields
`pixelCount = 0` and `ratio = 0` — the blur, absolute difference,
binarisation at 25 and two-iteration dilation of identical inputs produce
an all-zero changed-pixel mask. -/
theorem c9_masked_equal_frames_give_zero_difference (A B : Frame) (box : ℤ × ℤ × ℤ × ℤ)
    (hmask : zeroMask box A = zeroMask box B)
    (htot : totalPixelsInt box (gaussianBlur21 (zeroMask box A)) ≠ 0) :
    frameDifference A B box = .ok (0, 0) := by
  have hc : pixelCountOf A B box = 0 := by
    unfold pixelCountOf
    rw [← hmask]
    exact diffCount_self _
  unfold frameDifference
  rw [if_neg htot, hc]
  norm_num

/-- Witness for C9 at a concrete input: two identical 2×2 frames with a
1×1 mask. -/
theorem c9_masked_equal_frames_give_zero_difference_witness :
    frameDifference [[3, 4], [5, 6]] [[3, 4], [5, 6]] (0, 0, 1, 1) = .ok (0, 0) :=
  c9_masked_equal_frames_give_zero_difference [[3, 4], [5, 6]] [[3, 4], [5, 6]] (0, 0, 1, 1)
    rfl (by decide)

/-- Claim C6: the temporal key parser returns `(4, 21)` on
`"04M21S_1723482261"`, `(0, 0)` on `"garbage_name"`, `(0, 0)` on
`"00M00S_0"`, and deterministically `(0, 0)` on every stem the pattern
does not match, rather than raising an error. -/
theorem c6_parse_video_time_values :
    parseVideoTime "04M21S_1723482261" = (4, 21) ∧
    parseVideoTime "garbage_name" = (0, 0) ∧
    parseVideoTime "00M00S_0" = (0, 0) ∧
    ∀ s : String, parseVideoTimeAux s.data = none → parseVideoTime s = (0, 0) := by
  refine ⟨by decide, by decide, by decide, fun s h => ?_⟩
  unfold parseVideoTime
  rw [h]
  rfl

/-- Witness for C6: the no-match branch at the concrete stem `"xM3S_7"`. -/
theorem c6_parse_video_time_values_witness :
    parseVideoTimeAux "xM3S_7".data = none ∧ parseVideoTime "xM3S_7" = (0, 0) :=
  ⟨by decide, c6_parse_video_time_values.2.2.2 "xM3S_7" (by decide)⟩

/-- Claim C4: a clip that cannot be opened (`data = none`) or yields zero
decodable frames (`data = some []`) is classified `has_motion = true`,
so the folder pass keeps it (never deletes it) and continues with the
remaining clips. -/
theorem c4_unreadable_clip_retained (T : ℤ) (box : ℤ × ℤ × ℤ × ℤ) (R : ℚ)
    (c : ClipFile) (rest : List ClipFile) (kept : List ClipFile) (deleted : List String)
    (hc : c.data = none ∨ c.data = some [])
    (hrest : classifyClips T box R rest = .ok (kept, deleted)) :
    checkVideoMotion c.data c.frameCount T box R = .ok true ∧
    classifyClips T box R (c :: rest) = .ok (c :: kept, deleted) := by
  have hm : checkVideoMotion c.data c.frameCount T box R = .ok true := by
    rcases hc with h | h <;> rw [h] <;> rfl
  refine ⟨hm, ?_⟩
  unfold classifyClips
  rw [hm, hrest]
  rfl

/-- Witness for C4: an unopenable clip followed by an empty rest. -/
theorem c4_unreadable_clip_retained_witness :
    checkVideoMotion (none : Option (List Frame)) 7 500 (0, 0, 150, 40) 1 = .ok true ∧
    classifyClips 500 (0, 0, 150, 40) 1 [⟨"bad", none, 7, 0, 0, 30⟩] =
      .ok ([⟨"bad", none, 7, 0, 0, 30⟩], []) :=
  c4_unreadable_clip_retained 500 (0, 0, 150, 40) 1 ⟨"bad", none, 7, 0, 0, 30⟩ [] [] []
    (Or.inl rfl) rfl

/-- Claim C8: `concatenate` on an empty clip list is a no-op that returns
without error, and when the survivor set is empty the orchestrator skips
concatenation entirely — no output file is created and no error is
raised. -/
theorem c8_empty_survivors_skip_concatenation (T : ℤ) (box : ℤ × ℤ × ℤ × ℤ) (R : ℚ)
    (env : ConcatEnv) (clips : List ClipFile) (deleted : List String)
    (h : classifyClips T box R clips = .ok ([], deleted)) :
    concatenateVideos [] env = .empty ∧
    processVideoFolder clips T true box R env = .ok ([], deleted, none) := by
  refine ⟨rfl, ?_⟩
  unfold processVideoFolder
  rw [h]
  rfl

/-- Witness for C8: the empty folder. -/
theorem c8_empty_survivors_skip_concatenation_witness :
    concatenateVideos [] ⟨true, true, true⟩ = .empty ∧
    processVideoFolder [] 500 true (0, 0, 150, 40) 1 ⟨true, true, true⟩ = .ok ([], [], none) :=
  c8_empty_survivors_skip_concatenation 500 (0, 0, 150, 40) 1 ⟨true, true, true⟩ [] [] rfl

/-- Claim C1 is false of the code (code bug): when the secondary
compression pass fails — here, ffmpeg exits with a non-zero status, as
when the encoder is missing or errors — `os.system` raises no exception,
so the `except` clause never fires: the first-pass output (which existed,
see `afterFirstPass`) has been renamed to the temporary path, ffmpeg
creates nothing at the output path, and `os.remove` then deletes the
temporary copy.  The call ends with no file at the output path at all,
contradicting the claim that the first-pass concatenated output remains
in place. -/
theorem c1_compression_failure_destroys_output :
    concatenateVideos [⟨"00M01S_5", some [[[7]]], 1, 1, 1, 30⟩] ⟨true, true, false⟩ =
      .done { order := ["00M01S_5"],
              attempts := [(Codec.h264, 1, 1, 30)],
              writerOpened := true,
              writtenFrames := [[[7]]],
              afterFirstPass := some (OutFile.firstPass Codec.h264 [[[7]]]),
              outputFile := none,
              tempFile := none } := rfl

/-- Claim C3: if the writer fails to open with the primary H.264 codec, a
secondary MPEG-4 writer is created at the same dimensions and frame rate;
if both writers fail to open, no frames are written and no output file is
produced for that folder, while the classification-and-deletion results
are unaffected by the writer environment. -/
theorem c3_writer_fallback_and_abort (clips : List ClipFile) (env : ConcatEnv)
    (first : ClipFile) (restS : List ClipFile) (d : List Frame)
    (hs : sortClips clips = first :: restS) (hd : first.data = some d)
    (h1 : env.h264Opens = false) :
    (∃ r : ConcatResult,
        concatenateVideos clips env = .done r ∧
        r.attempts = [(Codec.h264, first.width, first.height, first.fps),
                      (Codec.mp4v, first.width, first.height, first.fps)] ∧
        (env.mp4vOpens = false →
          r.writtenFrames = [] ∧ r.afterFirstPass = none ∧ r.outputFile = none)) ∧
    ∀ (T : ℤ) (concat : Bool) (box : ℤ × ℤ × ℤ × ℤ) (R : ℚ) (env' : ConcatEnv),
      (processVideoFolder clips T concat box R env).map (fun p => (p.1, p.2.1)) =
        (processVideoFolder clips T concat box R env').map (fun p => (p.1, p.2.1)) := by
  constructor
  · unfold concatenateVideos
    rw [hs]
    dsimp only
    rw [hd]
    dsimp only
    refine ⟨_, rfl, by simp [h1], fun h2 => ?_⟩
    refine ⟨by simp [h1, h2], by simp [h1, h2], by simp [h1, h2]⟩
  · intro T concat box R env'
    unfold processVideoFolder
    cases hcl : classifyClips T box R clips with
    | error e => rfl
    | ok p =>
      dsimp only
      cases hb : (concat && !p.1.isEmpty) <;> rfl

/-- Witness for C3: one openable clip, both writers failing. -/
theorem c3_writer_fallback_and_abort_witness :
    ∃ r : ConcatResult,
      concatenateVideos [⟨"02M10S_9", some [[[1]]], 1, 2, 2, 30⟩] ⟨false, false, true⟩ =
        .done r ∧
      r.attempts = [(Codec.h264, 2, 2, 30), (Codec.mp4v, 2, 2, 30)] ∧
      (false = false →
        r.writtenFrames = [] ∧ r.afterFirstPass = none ∧ r.outputFile = none) :=
  (c3_writer_fallback_and_abort [⟨"02M10S_9", some [[[1]]], 1, 2, 2, 30⟩] ⟨false, false, true⟩
    ⟨"02M10S_9", some [[[1]]], 1, 2, 2, 30⟩ [] [[[1]]] rfl rfl rfl).1

theorem ratioCond_mono {R R' : ℚ} {c : ℕ} {total : ℤ} (h : R' ≤ R)
    (h2 : ratioCond R c total) : ratioCond R' c total :=
  lt_of_le_of_lt h h2

theorem motionLoop_mono (box : ℤ × ℤ × ℤ × ℤ) (total : ℤ) (interval : ℕ)
    {T T' : ℤ} {R R' : ℚ} (hT : T' ≤ T) (hR : R' ≤ R) :
    ∀ (frames : List Frame) (prevG : Frame) (idx : ℕ),
      motionLoop box T R total interval prevG idx frames = .ok true →
      motionLoop box T' R' total interval prevG idx frames = .ok true := by
  intro frames
  induction frames with
  | nil =>
    intro prevG idx h
    exact absurd h (by simp [motionLoop])
  | cons f rest ih =>
    intro prevG idx h
    unfold motionLoop at h ⊢
    by_cases hi : (idx + 1) % interval ≠ 0
    · rw [if_pos hi] at h ⊢
      exact ih _ _ h
    · rw [if_neg hi] at h ⊢
      by_cases ht0 : total = 0
      · rw [if_pos ht0] at h
        exact absurd h (by simp)
      · rw [if_neg ht0] at h ⊢
        by_cases hcond' : T' < (diffCount (gaussianBlur21 (zeroMask box f)) prevG : ℤ) ∧
            ratioCond R' (diffCount (gaussianBlur21 (zeroMask box f)) prevG) total
        · rw [if_pos hcond']
        · rw [if_neg hcond']
          by_cases hcond : T < (diffCount (gaussianBlur21 (zeroMask box f)) prevG : ℤ) ∧
              ratioCond R (diffCount (gaussianBlur21 (zeroMask box f)) prevG) total
          · exact absurd ⟨lt_of_le_of_lt hT hcond.1, ratioCond_mono hR hcond.2⟩ hcond'
          · rw [if_neg hcond] at h
            exact ih _ _ h

/-- Claim C5: classification is monotonic in both thresholds — for a
fixed clip and fixed frame sequence, if the classifier reports motion at
pixel-count threshold `T` and ratio threshold `R`, it also reports motion
at any `T' ≤ T` and `R' ≤ R`; lowering a threshold can only flip a
verdict from no-motion to motion. -/
theorem c5_classification_monotone_in_thresholds (data : Option (List Frame))
    (frameCount : ℕ) (box : ℤ × ℤ × ℤ × ℤ) (T T' : ℤ) (R R' : ℚ)
    (hT : T' ≤ T) (hR : R' ≤ R)
    (h : checkVideoMotion data frameCount T box R = .ok true) :
    checkVideoMotion data frameCount T' box R' = .ok true := by
  cases data with
  | none => rfl
  | some frames =>
    cases frames with
    | nil => rfl
    | cons first rest =>
      unfold checkVideoMotion at h ⊢
      exact motionLoop_mono box _ _ hT hR rest _ 0 h

/-- Witness for C5: a two-frame clip (all-black, then all-white) reported
as motion at thresholds `(10, 1)`, hence also at `(5, 0)`. -/
theorem c5_classification_monotone_in_thresholds_witness :
    ((5 : ℤ) ≤ 10 ∧ (0 : ℚ) ≤ 1 ∧
      checkVideoMotion (some [[List.replicate 25 0], [List.replicate 25 255]]) 2 10
        (0, 0, 0, 0) 1 = .ok true) ∧
    checkVideoMotion (some [[List.replicate 25 0], [List.replicate 25 255]]) 2 5
      (0, 0, 0, 0) 0 = .ok true :=
  ⟨⟨by decide, by decide, by rfl⟩,
    c5_classification_monotone_in_thresholds
      (some [[List.replicate 25 0], [List.replicate 25 255]]) 2 (0, 0, 0, 0) 10 5 1 0
      (by decide) (by decide) (by rfl)⟩

/-! ### Sorting lemmas -/

/-- Lexicographic `≤` on temporal keys. -/
def keyLE (a b : ℕ × ℕ) : Prop := a.1 < b.1 ∨ (a.1 = b.1 ∧ a.2 ≤ b.2)

theorem keyLE_of_keyLT {a b : ℕ × ℕ} (h : keyLT a b = true) : keyLE a b := by
  simp [keyLT] at h
  unfold keyLE
  omega

theorem keyLE_of_not_keyLT {a b : ℕ × ℕ} (h : keyLT b a = false) : keyLE a b := by
  simp [keyLT] at h
  unfold keyLE
  omega

theorem keyLE_trans {a b c : ℕ × ℕ} (h1 : keyLE a b) (h2 : keyLE b c) : keyLE a c := by
  unfold keyLE at h1 h2 ⊢
  omega

theorem mem_insertByKey {key : α → ℕ × ℕ} {a x : α} {l : List α} :
    x ∈ insertByKey key a l ↔ x = a ∨ x ∈ l := by
  induction l with
  | nil => simp [insertByKey]
  | cons b bs ih =>
    unfold insertByKey
    cases hlt : keyLT (key b) (key a) with
    | false =>
      rw [if_neg (by simp [hlt])]
      simp
    | true =>
      rw [if_pos rfl]
      simp [ih]
      tauto

theorem insertByKey_pairwise {key : α → ℕ × ℕ} {a : α} {l : List α}
    (h : l.Pairwise (fun x y => keyLE (key x) (key y))) :
    (insertByKey key a l).Pairwise (fun x y => keyLE (key x) (key y)) := by
  induction l with
  | nil => simp [insertByKey]
  | cons b bs ih =>
    rcases List.pairwise_cons.mp h with ⟨hb, hbs⟩
    unfold insertByKey
    cases hlt : keyLT (key b) (key a) with
    | false =>
      rw [if_neg (by simp [hlt])]
      refine List.pairwise_cons.mpr ⟨?_, h⟩
      intro x hx
      rcases List.mem_cons.mp hx with h1 | h1
      · subst h1
        exact keyLE_of_not_keyLT hlt
      · exact keyLE_trans (keyLE_of_not_keyLT hlt) (hb x h1)
    | true =>
      rw [if_pos rfl]
      refine List.pairwise_cons.mpr ⟨?_, ih hbs⟩
      intro x hx
      rcases mem_insertByKey.mp hx with h1 | h1
      · subst h1
        exact keyLE_of_keyLT hlt
      · exact hb x h1

theorem sortByKey_pairwise (key : α → ℕ × ℕ) (l : List α) :
    (sortByKey key l).Pairwise (fun x y => keyLE (key x) (key y)) := by
  induction l with
  | nil => simp [sortByKey]
  | cons a as ih => exact insertByKey_pairwise ih

theorem insertByKey_perm (key : α → ℕ × ℕ) (a : α) (l : List α) :
    (insertByKey key a l).Perm (a :: l) := by
  induction l with
  | nil => exact List.Perm.refl _
  | cons b bs ih =>
    unfold insertByKey
    cases hlt : keyLT (key b) (key a) with
    | false => rw [if_neg (by simp)]
    | true =>
      rw [if_pos rfl]
      exact (ih.cons b).trans (List.Perm.swap a b bs)

theorem sortByKey_perm (key : α → ℕ × ℕ) (l : List α) : (sortByKey key l).Perm l := by
  induction l with
  | nil => exact List.Perm.refl _
  | cons a as ih => exact (insertByKey_perm key a (sortByKey key as)).trans (ih.cons a)

theorem insertByKey_filter (key : α → ℕ × ℕ) (a : α) (l : List α) (k : ℕ × ℕ) :
    (insertByKey key a l).filter (fun x => decide (key x = k)) =
      (a :: l).filter (fun x => decide (key x = k)) := by
  induction l with
  | nil => rfl
  | cons b bs ih =>
    unfold insertByKey
    cases hlt : keyLT (key b) (key a) with
    | false => rw [if_neg (by simp [hlt])]
    | true =>
      rw [if_pos rfl]
      by_cases hak : key a = k
      · have hbk : ¬ key b = k := by
          intro hbk
          rw [hbk, hak] at hlt
          simp [keyLT] at hlt
        simp only [List.filter_cons, decide_eq_true_eq, if_pos hak, if_neg hbk, ih]
      · by_cases hbk : key b = k
        · simp only [List.filter_cons, decide_eq_true_eq, if_pos hbk, if_neg hak, ih]
        · simp only [List.filter_cons, decide_eq_true_eq, if_neg hbk, if_neg hak, ih]

theorem sortByKey_filter (key : α → ℕ × ℕ) (l : List α) (k : ℕ × ℕ) :
    (sortByKey key l).filter (fun x => decide (key x = k)) =
      l.filter (fun x => decide (key x = k)) := by
  induction l with
  | nil => rfl
  | cons a as ih =>
    show (insertByKey key a (sortByKey key as)).filter _ = _
    rw [insertByKey_filter]
    simp only [List.filter_cons]
    rw [ih]

/-- Claim C7: the concatenator writes clips in ascending order of their
parsed `(minutes, seconds)` key using a stable sort: input keys
`(4,21), (1,05), (4,20)` are written in the order `(1,05), (4,20),
(4,21)`; the sorted survivor list is ascending under the lexicographic
key order, is a permutation of the input, and clips with equal (or
equally unparsable) keys keep their relative input order. -/
theorem c7_concatenation_sorted_stable :
    (concatenateVideos
        [⟨"04M21S_1723482261", some [[[1]]], 1, 8, 8, 25⟩,
         ⟨"01M05S_2", some [[[2]]], 1, 8, 8, 25⟩,
         ⟨"04M20S_3", some [[[3]]], 1, 8, 8, 25⟩] ⟨true, true, true⟩ =
      .done { order := ["01M05S_2", "04M20S_3", "04M21S_1723482261"],
              attempts := [(Codec.h264, 8, 8, 25)],
              writerOpened := true,
              writtenFrames := [[[2]], [[3]], [[1]]],
              afterFirstPass := some (OutFile.firstPass Codec.h264 [[[2]], [[3]], [[1]]]),
              outputFile := some (OutFile.reencoded [[[2]], [[3]], [[1]]]),
              tempFile := none }) ∧
    (∀ clips : List ClipFile,
      (sortClips clips).Pairwise (fun a b => keyLE (clipKey a) (clipKey b))) ∧
    (∀ clips : List ClipFile, (sortClips clips).Perm clips) ∧
    (∀ (clips : List ClipFile) (k : ℕ × ℕ),
      (sortClips clips).filter (fun c => decide (clipKey c = k)) =
        clips.filter (fun c => decide (clipKey c = k))) :=
  ⟨rfl, fun clips => sortByKey_pairwise clipKey clips,
    fun clips => sortByKey_perm clipKey clips,
    fun clips k => sortByKey_filter clipKey clips k⟩

/-! ### Shape preservation through the pipeline -/

/-- `f` is a rectangular `h × w` image. -/
def isRect (f : Frame) (h w : ℕ) : Prop := f.length = h ∧ ∀ r ∈ f, r.length = w

theorem zeroMask_isRect {box : ℤ × ℤ × ℤ × ℤ} {f : Frame} {h w : ℕ}
    (hf : isRect f h w) : isRect (zeroMask box f) h w := by
  refine ⟨?_, ?_⟩
  · show (idxMapFrom _ 0 f).length = h
    rw [length_idxMapFrom]
    exact hf.1
  · intro r hr
    rcases mem_idxMapFrom hr with ⟨y, row, hrow, hre⟩
    subst hre
    show (idxMapFrom _ 0 row).length = w
    rw [length_idxMapFrom]
    exact hf.2 row hrow

theorem hblur_isRect {f : Frame} {h w : ℕ} (hf : isRect f h w) :
    isRect (hblur f) h w := by
  refine ⟨by simp [hblur, hf.1], ?_⟩
  intro r hr
  rcases List.mem_map.mp hr with ⟨row, hrow, hre⟩
  subst hre
  show (idxMapFrom _ 0 row).length = w
  rw [length_idxMapFrom]
  exact hf.2 row hrow

theorem vblur_isRect {f : Frame} {h w : ℕ} (hf : isRect f h w) :
    isRect (vblur f) h w := by
  refine ⟨?_, ?_⟩
  · show (idxMapFrom _ 0 f).length = h
    rw [length_idxMapFrom]
    exact hf.1
  · intro r hr
    rcases mem_idxMapFrom hr with ⟨y, row, hrow, hre⟩
    subst hre
    show (idxMapFrom _ 0 row).length = w
    rw [length_idxMapFrom]
    exact hf.2 row hrow

theorem gaussianBlur21_isRect {f : Frame} {h w : ℕ} (hf : isRect f h w) :
    isRect (gaussianBlur21 f) h w :=
  vblur_isRect (hblur_isRect hf)

theorem heightOf_isRect {g : Frame} {h w : ℕ} (hg : isRect g h w) : heightOf g = h := hg.1

theorem widthOf_isRect {g : Frame} {h w : ℕ} (hg : isRect g h w) (hh : 0 < h) :
    widthOf g = w := by
  cases g with
  | nil => exact absurd hg.1 (by simp; omega)
  | cons r t => exact hg.2 r (List.mem_cons_self r t)

/-- The MaskRegion invariant of the spec:
`0 ≤ x1 ≤ x2 ≤ frame width` and `0 ≤ y1 ≤ y2 ≤ frame height`. -/
def maskInvariant (box : ℤ × ℤ × ℤ × ℤ) (w h : ℕ) : Prop :=
  0 ≤ box.1 ∧ box.1 ≤ box.2.2.1 ∧ box.2.2.1 ≤ (w : ℤ) ∧
  0 ≤ box.2.1 ∧ box.2.1 ≤ box.2.2.2 ∧ box.2.2.2 ≤ (h : ℤ)

instance maskInvariant.instDecidable (box : ℤ × ℤ × ℤ × ℤ) (w h : ℕ) :
    Decidable (maskInvariant box w h) := by
  unfold maskInvariant
  exact inferInstance

theorem motionLoop_error_of_total_zero (box : ℤ × ℤ × ℤ × ℤ) (T : ℤ) (R : ℚ)
    (interval : ℕ) :
    ∀ (frames : List Frame) (prevG : Frame) (idx : ℕ),
      (∃ k, idx < k ∧ k ≤ idx + frames.length ∧ k % interval = 0) →
      motionLoop box T R 0 interval prevG idx frames = .error () := by
  intro frames
  induction frames with
  | nil =>
    intro prevG idx h
    rcases h with ⟨k, h1, h2, _⟩
    simp at h2
    omega
  | cons f rest ih =>
    intro prevG idx h
    rcases h with ⟨k, h1, h2, h3⟩
    unfold motionLoop
    by_cases hi : (idx + 1) % interval ≠ 0
    · rw [if_pos hi]
      apply ih
      by_cases hk : k = idx + 1
      · subst hk
        exact absurd h3 hi
      · refine ⟨k, by omega, ?_, h3⟩
        simp only [List.length_cons] at h2
        omega
    · rw [if_neg hi, if_pos rfl]

/-- Claim C10: the changed-pixel ratio divides by
`totalPixels = height * width - (x2 - x1) * (y2 - y1)`; under the
MaskRegion invariant this denominator is strictly positive exactly when
the mask area is strictly smaller than the frame area, and a mask
rectangle covering the entire frame — which the invariant permits — makes
the denominator zero, so classifying any multi-frame clip (at least one
decodable frame after the first, frame-count metadata matching the
decodable frames) raises a division error. -/
theorem c10_denominator_positivity_and_full_mask_failure :
    (∀ (box : ℤ × ℤ × ℤ × ℤ) (g : Frame),
      maskInvariant box (widthOf g) (heightOf g) →
        (0 < totalPixelsInt box g ↔
          (box.2.2.1 - box.1) * (box.2.2.2 - box.2.1) <
            (heightOf g : ℤ) * (widthOf g : ℤ))) ∧
    (∀ (f : Frame) (rest : List Frame) (W H : ℕ) (T : ℤ) (R : ℚ),
      rest ≠ [] → 0 < W → 0 < H → isRect f H W →
      checkVideoMotion (some (f :: rest)) (rest.length + 1) T (0, 0, (W : ℤ), (H : ℤ)) R =
        .error ()) := by
  constructor
  · intro box g _
    exact Int.sub_pos
  · intro f rest W H T R hne hW hH hrect
    have hg : isRect (gaussianBlur21 (zeroMask (0, 0, (W : ℤ), (H : ℤ)) f)) H W :=
      gaussianBlur21_isRect (zeroMask_isRect hrect)
    have htot : totalPixelsInt (0, 0, (W : ℤ), (H : ℤ))
        (gaussianBlur21 (zeroMask (0, 0, (W : ℤ), (H : ℤ)) f)) = 0 := by
      unfold totalPixelsInt
      rw [heightOf_isRect hg, widthOf_isRect hg hH]
      ring
    unfold checkVideoMotion
    dsimp only
    rw [htot]
    apply motionLoop_error_of_total_zero
    have hlen : 1 ≤ rest.length := List.length_pos.mpr hne
    refine ⟨max 1 ((rest.length + 1) / 20), by omega, by omega, Nat.mod_self _⟩

/-- Witness for C10: a full-frame mask on a 2×2 two-frame clip. -/
theorem c10_denominator_positivity_and_full_mask_failure_witness :
    (maskInvariant (0, 0, 1, 1) (widthOf [[1, 2], [3, 4]]) (heightOf [[1, 2], [3, 4]]) ∧
      (0 < totalPixelsInt (0, 0, 1, 1) [[1, 2], [3, 4]] ↔
        ((1 : ℤ) - 0) * ((1 : ℤ) - 0) <
          (heightOf [[1, 2], [3, 4]] : ℤ) * (widthOf [[1, 2], [3, 4]] : ℤ))) ∧
    checkVideoMotion (some [[[1, 2], [3, 4]], [[5, 6], [7, 8]]]) 2 500 (0, 0, 2, 2)
      (mkRat 1 10) = .error () :=
  ⟨⟨by decide, c10_denominator_positivity_and_full_mask_failure.1 (0, 0, 1, 1)
      [[1, 2], [3, 4]] (by decide)⟩,
    c10_denominator_positivity_and_full_mask_failure.2 [[1, 2], [3, 4]] [[[5, 6], [7, 8]]]
      2 2 500 (mkRat 1 10) (by decide) (by decide) (by decide) ⟨rfl, by decide⟩⟩

/-! ### Mask-content irrelevance and the ratio denominator -/

theorem ext_getD {l l' : List α} (d : α) (hl : l.length = l'.length)
    (h : ∀ i, i < l.length → l.getD i d = l'.getD i d) : l = l' := by
  induction l generalizing l' with
  | nil =>
    cases l' with
    | nil => rfl
    | cons b bs => cases hl
  | cons a as ih =>
    cases l' with
    | nil => cases hl
    | cons b bs =>
      have h0 : a = b := h 0 (by simp)
      have htail : as = bs :=
        ih (by simpa using hl) (fun i hi => h (i + 1) (by simpa using Nat.succ_lt_succ hi))
      rw [h0, htail]

theorem getD_idxMapFrom (f : ℕ → α → β) (i : ℕ) (l : List α) (j : ℕ)
    (da : α) (db : β) (hj : j < l.length) :
    (idxMapFrom f i l).getD j db = f (i + j) (l.getD j da) := by
  induction l generalizing i j with
  | nil => cases hj
  | cons a as ih =>
    cases j with
    | zero => rfl
    | succ j =>
      have := ih (i + 1) j (Nat.lt_of_succ_lt_succ hj)
      simpa [idxMapFrom, Nat.add_assoc, Nat.add_comm 1 j] using this

theorem getD_map_length (l : List (List ℕ)) (y : ℕ) :
    (l.map List.length).getD y 0 = (l.getD y []).length := by
  induction l generalizing y with
  | nil => cases y <;> rfl
  | cons a as ih =>
    cases y with
    | zero => rfl
    | succ y => exact ih y

/-- `A` and `A'` have the same shape and agree at every pixel outside the
zeroed mask slice; they may differ arbitrarily inside it. -/
def agreeOutsideMask (box : ℤ × ℤ × ℤ × ℤ) (A A' : Frame) : Prop :=
  A.map List.length = A'.map List.length ∧
  ∀ y x, inMaskRegion box A.length ((A.getD y []).length) y x = false →
    getPix A y x = getPix A' y x

theorem zeroMask_congr {box : ℤ × ℤ × ℤ × ℤ} {A A' : Frame}
    (h : agreeOutsideMask box A A') : zeroMask box A = zeroMask box A' := by
  obtain ⟨hlen, hval⟩ := h
  have hL : A.length = A'.length := by simpa using congrArg List.length hlen
  have hrow : ∀ y, (A.getD y []).length = (A'.getD y []).length := by
    intro y
    rw [← getD_map_length, ← getD_map_length, hlen]
  unfold zeroMask idxMap
  apply ext_getD ([] : List ℕ)
  · rw [length_idxMapFrom, length_idxMapFrom, hL]
  · intro y hy
    rw [length_idxMapFrom] at hy
    have hyA' : y < A'.length := hL ▸ hy
    rw [getD_idxMapFrom _ 0 A y [] [] hy, getD_idxMapFrom _ 0 A' y [] [] hyA']
    simp only [Nat.zero_add]
    apply ext_getD (0 : ℕ)
    · rw [length_idxMapFrom, length_idxMapFrom, hrow y]
    · intro x hx
      rw [length_idxMapFrom] at hx
      have hxA' : x < (A'.getD y []).length := hrow y ▸ hx
      rw [getD_idxMapFrom _ 0 _ x 0 0 hx, getD_idxMapFrom _ 0 _ x 0 0 hxA']
      simp only [Nat.zero_add]
      rw [hL, hrow y]
      by_cases hc : (inSlice A'.length box.2.1 box.2.2.2 y &&
          inSlice (A'.getD y []).length box.1 box.2.2.1 x) = true
      · rw [if_pos hc, if_pos hc]
      · rw [if_neg hc, if_neg hc]
        have hcf : inMaskRegion box A.length ((A.getD y []).length) y x = false := by
          unfold inMaskRegion
          rw [hL, hrow y]
          revert hc
          cases inSlice A'.length box.2.1 box.2.2.2 y &&
            inSlice (A'.getD y []).length box.1 box.2.2.1 x <;> simp
        exact hval y x hcf

/-- The number of pixel positions of an `h × w` frame that fall inside the
zeroed mask slice. -/
def maskedCount (box : ℤ × ℤ × ℤ × ℤ) (h w : ℕ) : ℕ :=
  ((List.range h).map
    (fun y => ((List.range w).map
      (fun x => if inMaskRegion box h w y x then 1 else 0)).sum)).sum

theorem rangeIfSum (a b k : ℕ) :
    ∀ n, ((List.range n).map (fun i => if a ≤ i ∧ i < b then k else 0)).sum =
      (min b n - min a n) * k := by
  intro n
  induction n with
  | zero => simp
  | succ n ih =>
    rw [List.range_succ, List.map_append, List.sum_append, ih]
    simp only [List.map_cons, List.map_nil, List.sum_cons, List.sum_nil]
    by_cases h : a ≤ n ∧ n < b
    · rw [if_pos h]
      have h1 : min b (n + 1) - min a (n + 1) = (min b n - min a n) + 1 := by omega
      rw [h1, add_mul, one_mul]
      omega
    · rw [if_neg h]
      have h1 : min b (n + 1) - min a (n + 1) = min b n - min a n := by omega
      rw [h1]
      omega

theorem normIdx_of_invariant {n : ℕ} {a : ℤ} (h0 : 0 ≤ a) (hn : a ≤ (n : ℤ)) :
    normIdx n a = a.toNat := by
  unfold normIdx
  rw [if_neg (by omega)]
  omega

theorem ite_inMaskRegion (box : ℤ × ℤ × ℤ × ℤ) (h w y x k : ℕ) :
    (if inMaskRegion box h w y x then k else 0) =
      if normIdx h box.2.1 ≤ y ∧ y < normIdx h box.2.2.2 then
        (if normIdx w box.1 ≤ x ∧ x < normIdx w box.2.2.1 then k else 0)
      else 0 := by
  simp only [inMaskRegion, inSlice, Bool.and_eq_true, decide_eq_true_eq]
  split_ifs <;> tauto

theorem maskedCount_eq (box : ℤ × ℤ × ℤ × ℤ) (h w : ℕ)
    (hinv : maskInvariant box w h) :
    (maskedCount box h w : ℤ) = (box.2.2.1 - box.1) * (box.2.2.2 - box.2.1) := by
  obtain ⟨h1, h2, h3, h4, h5, h6⟩ := hinv
  have hx1 : normIdx w box.1 = box.1.toNat := normIdx_of_invariant h1 (le_trans h2 h3)
  have hx2 : normIdx w box.2.2.1 = box.2.2.1.toNat := normIdx_of_invariant (le_trans h1 h2) h3
  have hy1 : normIdx h box.2.1 = box.2.1.toNat := normIdx_of_invariant h4 (le_trans h5 h6)
  have hy2 : normIdx h box.2.2.2 = box.2.2.2.toNat := normIdx_of_invariant (le_trans h4 h5) h6
  have hrow : ∀ y, ((List.range w).map
      (fun x => if inMaskRegion box h w y x then (1 : ℕ) else 0)).sum =
      if normIdx h box.2.1 ≤ y ∧ y < normIdx h box.2.2.2 then
        (box.2.2.1.toNat - box.1.toNat) else 0 := by
    intro y
    rw [List.map_congr_left (fun x _ => ite_inMaskRegion box h w y x 1)]
    by_cases hy : normIdx h box.2.1 ≤ y ∧ y < normIdx h box.2.2.2
    · rw [if_pos hy]
      simp only [if_pos hy]
      rw [rangeIfSum (normIdx w box.1) (normIdx w box.2.2.1) 1 w, hx1, hx2, mul_one]
      omega
    · rw [if_neg hy]
      simp only [if_neg hy]
      simp
  unfold maskedCount
  rw [List.map_congr_left (fun y _ => hrow y)]
  rw [rangeIfSum (normIdx h box.2.1) (normIdx h box.2.2.2) _ h, hy1, hy2]
  have m1 : min box.2.2.2.toNat h = box.2.2.2.toNat := by omega
  have m2 : min box.2.1.toNat h = box.2.1.toNat := by omega
  rw [m1, m2, Nat.cast_mul]
  have e1 : ((box.2.2.2.toNat - box.2.1.toNat : ℕ) : ℤ) = box.2.2.2 - box.2.1 := by omega
  have e2 : ((box.2.2.1.toNat - box.1.toNat : ℕ) : ℤ) = box.2.2.1 - box.1 := by omega
  rw [e1, e2, mul_comm]

/-- Claim C2 (amended): the *content* of the mask region never influences
the changed-pixel count or the frame difference — both frames have the
rectangle zeroed before comparison, so frames that agree outside the mask
are interchangeable — and under the MaskRegion invariant the ratio
denominator equals the frame area minus the number of pixel positions
inside the mask slice.  (As stated the claim is false: pixel *locations*
strictly inside the mask rectangle can still be counted in `pixelCount`,
because blur and dilation propagate changes across the mask boundary —
see the counterexample.) -/
theorem c2_mask_content_irrelevant_and_denominator :
    (∀ (box : ℤ × ℤ × ℤ × ℤ) (A A' B : Frame), agreeOutsideMask box A A' →
      pixelCountOf A B box = pixelCountOf A' B box ∧
      frameDifference A B box = frameDifference A' B box) ∧
    (∀ (box : ℤ × ℤ × ℤ × ℤ) (A B B' : Frame), agreeOutsideMask box B B' →
      pixelCountOf A B box = pixelCountOf A B' box) ∧
    (∀ (box : ℤ × ℤ × ℤ × ℤ) (g : Frame),
      maskInvariant box (widthOf g) (heightOf g) →
      totalPixelsInt box g =
        (heightOf g : ℤ) * (widthOf g : ℤ) -
          (maskedCount box (heightOf g) (widthOf g) : ℤ)) := by
  refine ⟨?_, ?_, ?_⟩
  · intro box A A' B h
    constructor
    · unfold pixelCountOf
      rw [zeroMask_congr h]
    · unfold frameDifference pixelCountOf
      rw [zeroMask_congr h]
  · intro box A B B' h
    unfold pixelCountOf
    rw [zeroMask_congr h]
  · intro box g hinv
    rw [maskedCount_eq box (heightOf g) (widthOf g) hinv]
    rfl

/-- Witness for C2 (amended): frames differing only inside the mask give
identical results, and a concrete denominator instance. -/
theorem c2_mask_content_irrelevant_and_denominator_witness :
    (agreeOutsideMask (0, 0, 1, 1) [[1, 2], [3, 4]] [[9, 2], [3, 4]] ∧
      pixelCountOf [[1, 2], [3, 4]] [[5, 6], [7, 8]] (0, 0, 1, 1) =
        pixelCountOf [[9, 2], [3, 4]] [[5, 6], [7, 8]] (0, 0, 1, 1) ∧
      frameDifference [[1, 2], [3, 4]] [[5, 6], [7, 8]] (0, 0, 1, 1) =
        frameDifference [[9, 2], [3, 4]] [[5, 6], [7, 8]] (0, 0, 1, 1)) ∧
    (maskInvariant (0, 0, 1, 1) (widthOf [[1, 2], [3, 4]]) (heightOf [[1, 2], [3, 4]]) ∧
      totalPixelsInt (0, 0, 1, 1) [[1, 2], [3, 4]] =
        (heightOf [[1, 2], [3, 4]] : ℤ) * (widthOf [[1, 2], [3, 4]] : ℤ) -
          (maskedCount (0, 0, 1, 1) (heightOf [[1, 2], [3, 4]])
            (widthOf [[1, 2], [3, 4]]) : ℤ)) := by
  have hagree : agreeOutsideMask (0, 0, 1, 1) [[1, 2], [3, 4]] [[9, 2], [3, 4]] := by
    refine ⟨rfl, ?_⟩
    intro y x hc
    match y, x with
    | 0, 0 => exact absurd hc (by decide)
    | 0, 1 => rfl
    | 0, x + 2 => rfl
    | 1, x => rfl
    | y + 2, x => rfl
  have hinv : maskInvariant (0, 0, 1, 1) (widthOf [[1, 2], [3, 4]])
      (heightOf [[1, 2], [3, 4]]) := by decide
  exact ⟨⟨hagree,
      (c2_mask_content_irrelevant_and_denominator.1 (0, 0, 1, 1) [[1, 2], [3, 4]]
        [[9, 2], [3, 4]] [[5, 6], [7, 8]] hagree).1,
      (c2_mask_content_irrelevant_and_denominator.1 (0, 0, 1, 1) [[1, 2], [3, 4]]
        [[9, 2], [3, 4]] [[5, 6], [7, 8]] hagree).2⟩,
    ⟨hinv,
      c2_mask_content_irrelevant_and_denominator.2.2 (0, 0, 1, 1) [[1, 2], [3, 4]] hinv⟩⟩

/-- Counterexample to claim C2 as stated: reference frame all zero,
current frame white on the right half, mask covering the left half
`x ∈ [0, 10)` of a 3×20 frame.  The final changed-pixel mask is non-zero
at locations strictly inside the mask rectangle (blur and dilation bleed
the change across the boundary), so `pixelCount` (45) exceeds the count
restricted to locations outside the mask (30): `pixelCount` does not
count only pixels outside the mask. -/
theorem c2_mask_region_counterexample :
    pixelCountOf (List.replicate 3 (List.replicate 20 0))
        (List.replicate 3 (List.replicate 10 0 ++ List.replicate 10 255)) (0, 0, 10, 3) =
      countWhere (fun _ _ v => decide (0 < v))
        (changedMask (List.replicate 3 (List.replicate 20 0))
          (List.replicate 3 (List.replicate 10 0 ++ List.replicate 10 255)) (0, 0, 10, 3)) ∧
    pixelCountOf (List.replicate 3 (List.replicate 20 0))
        (List.replicate 3 (List.replicate 10 0 ++ List.replicate 10 255)) (0, 0, 10, 3) ≠
      countWhere (fun y x v => !(inMaskRegion (0, 0, 10, 3) 3 20 y x) && decide (0 < v))
        (changedMask (List.replicate 3 (List.replicate 20 0))
          (List.replicate 3 (List.replicate 10 0 ++ List.replicate 10 255)) (0, 0, 10, 3)) ∧
    0 < countWhere (fun y x v => strictlyInsideBox (0, 0, 10, 3) y x && decide (0 < v))
        (changedMask (List.replicate 3 (List.replicate 20 0))
          (List.replicate 3 (List.replicate 10 0 ++ List.replicate 10 255)) (0, 0, 10, 3)) := by
  refine ⟨by decide, by decide, by decide⟩

end VideoCheck
